import Mathlib

/-!
Verification of the dappnode smoothing-pool oracle against its specification.

The Go sources are shallowly embedded: strings are modelled as Lean strings
(all addresses handled by the code are ASCII hex strings, so Go byte length
and byte-lexicographic order coincide with Lean character length and order),
Go big.Int values as Lean integers, uint64 values as natural numbers, and Go
maps keyed by validator index as association lists.  A Go function that can
call log.Fatal (process abort) is embedded as an Option-valued function,
where none marks the abort.
-/

/-- ASCII lowercasing of one character: A-Z is mapped to a-z, everything else
is kept.  On the ASCII strings handled by the oracle this is exactly what
strings.ToLower does in Go. -/
def asciiLowerChar (c : Char) : Char :=
  if 'A' ≤ c ∧ c ≤ 'Z' then Char.ofNat (c.toNat + 32) else c

/-- ASCII lowercasing of a string, character by character. -/
def asciiLower (s : String) : String :=
  String.mk (s.data.map asciiLowerChar)

/-- Embedding of AreAddressEqual (src/api/api.go).  The Go function calls
log.Fatal when the two strings have different lengths, which aborts the whole
process; that branch is modelled as none.  Otherwise it compares the two
strings lowercased. -/
def AreAddressEqual (address1 : String) (address2 : String) : Option Bool :=
  if address1.length ≠ address2.length then
    none
  else
    if asciiLower address1 = asciiLower address2 then some true else some false

/-- Beacon-chain validator states (the subset of the go-eth2-client v1
ValidatorState enum that the oracle distinguishes). -/
inductive BeaconValidatorState where
  | pendingInitialized
  | pendingQueued
  | activeOngoing
  | activeExiting
  | activeSlashed
  | exitedUnslashed
  | exitedSlashed
  | withdrawalPossible
  | withdrawalDone
deriving DecidableEq, Repr

/-- Beacon-chain view of a validator, as attached to each contract event.
The eth1WithdrawalAddress field is the address derived from the withdrawal
credentials when they are eth1-style (prefix byte 0x01), none otherwise. -/
structure BeaconValidator where
  index : Nat
  status : BeaconValidatorState
  pubkey : String
  eth1WithdrawalAddress : Option String
deriving DecidableEq, Repr

/-- Modelled from the spec: the body of oracle.CanValidatorSubscribeToPool is
not under src/ (src/api/api.go only calls it).  Following the spec, a
validator may subscribe when its beacon-side status is one that can still
produce blocks: not slashed and not exited (section 4.5 condition (ii)). -/
def CanValidatorSubscribeToPool (validator : BeaconValidator) : Bool :=
  match validator.status with
  | .activeExiting => false
  | .activeSlashed => false
  | .exitedUnslashed => false
  | .exitedSlashed => false
  | .withdrawalPossible => false
  | .withdrawalDone => false
  | _ => true

/-- Embedding of the contract SubscribeValidator event.  The sender field
holds the string rendering of the 20-byte sender address (Address.String in
go-ethereum), and blockNumber the Raw.BlockNumber field. -/
structure ContractSubscribeValidator where
  validatorID : Nat
  subscriptionCollateral : Int
  sender : String
  blockNumber : Nat
deriving DecidableEq, Repr

/-- Embedding of the contract UnsubscribeValidator event. -/
structure ContractUnsubscribeValidator where
  validatorID : Nat
  sender : String
  blockNumber : Nat
deriving DecidableEq, Repr

/-- Embedding of oracle.Subscription: a contract event plus the beacon-chain
view of the affected validator. -/
structure Subscription where
  event : ContractSubscribeValidator
  validator : BeaconValidator
deriving DecidableEq, Repr

/-- Embedding of oracle.Unsubscription. -/
structure Unsubscription where
  event : ContractUnsubscribeValidator
  validator : BeaconValidator
deriving DecidableEq, Repr

/-- Oracle-side status of a validator (oracle.ValidatorStatus). -/
inductive ValidatorStatus where
  | untracked
  | notSubscribed
  | active
  | yellowCard
  | redCard
  | banned
deriving DecidableEq, Repr

/-- Embedding of oracle.ValidatorInfo.  The part_003 test era names the
withdrawal address field DepositAddress; both name the same piece of data. -/
structure ValidatorInfo where
  validatorStatus : ValidatorStatus
  accumulatedRewardsWei : Int
  pendingRewardsWei : Int
  collateralWei : Int
  withdrawalAddress : String
  validatorKey : String
  validatorIndex : Nat
  proposedBlocksSlots : List Nat
  missedBlocksSlots : List Nat
  wrongFeeBlocksSlots : List Nat
deriving DecidableEq, Repr

/-- A Go map from validator index to validator record, embedded as an
association list.  ApplyNonFinalizedState never iterates the map (only the
event lists), so the representation order is immaterial there. -/
abbrev ValidatorMap := List (Nat × ValidatorInfo)

/-- Lookup of a key in the association list (Go map read). -/
def lookupVal : ValidatorMap → Nat → Option ValidatorInfo
  | [], _ => none
  | kv :: m, k => if kv.1 = k then some kv.2 else lookupVal m k

/-- Pointwise update of the entry of a key (Go map write through a present
key). -/
def updateVal (m : ValidatorMap) (k : Nat) (f : ValidatorInfo → ValidatorInfo) : ValidatorMap :=
  m.map (fun kv => if kv.1 = k then (kv.1, f kv.2) else kv)

/-- Option-valued left fold: the Go pattern of a loop whose body may abort
the process (none) threads through it. -/
def foldOpt (f : σ → α → Option σ) : σ → List α → Option σ
  | s, [] => some s
  | s, a :: l =>
    match f s a with
    | none => none
    | some s' => foldOpt f s' l

/-- One subscription event as processed inside ApplyNonFinalizedState
(src/api/api.go): when the validator index is a key of the map, the event
sender matches the stored withdrawal address, the collateral reaches the
configured bar, the beacon-side validator may still subscribe and the oracle
status is Untracked or NotSubscribed, the status becomes Active and the
collateral is added to the pending rewards; otherwise nothing changes.  The
none result is the log.Fatal abort inside AreAddressEqual. -/
def applySubEvent (collateralInWei : Int) (m : ValidatorMap) (sub : Subscription) :
    Option ValidatorMap :=
  match lookupVal m sub.event.validatorID with
  | none => some m
  | some val =>
    match AreAddressEqual val.withdrawalAddress sub.event.sender with
    | none => none
    | some addrEq =>
      if addrEq then
        if collateralInWei ≤ sub.event.subscriptionCollateral then
          if CanValidatorSubscribeToPool sub.validator then
            if val.validatorStatus = ValidatorStatus.untracked ∨
                val.validatorStatus = ValidatorStatus.notSubscribed then
              some (updateVal m sub.event.validatorID (fun v =>
                { v with
                  validatorStatus := ValidatorStatus.active
                  pendingRewardsWei := v.pendingRewardsWei + sub.event.subscriptionCollateral }))
            else some m
          else some m
        else some m
      else some m

/-- One unsubscription event as processed inside ApplyNonFinalizedState
(src/api/api.go): when the validator index is a key, the sender matches the
stored withdrawal address and the status is Active, YellowCard or RedCard,
the status becomes NotSubscribed and pending rewards are reset to zero. -/
def applyUnsubEvent (m : ValidatorMap) (unsub : Unsubscription) : Option ValidatorMap :=
  match lookupVal m unsub.event.validatorID with
  | none => some m
  | some val =>
    match AreAddressEqual val.withdrawalAddress unsub.event.sender with
    | none => none
    | some addrEq =>
      if addrEq then
        if val.validatorStatus = ValidatorStatus.active ∨
            val.validatorStatus = ValidatorStatus.yellowCard ∨
            val.validatorStatus = ValidatorStatus.redCard then
          some (updateVal m unsub.event.validatorID (fun v =>
            { v with
              validatorStatus := ValidatorStatus.notSubscribed
              pendingRewardsWei := 0 }))
        else some m
      else some m

/-- Embedding of GetSubInBlock (src/api/api.go): the subscriptions of one
execution block, in their original list order. -/
def GetSubInBlock (subs : List Subscription) (block : Nat) : List Subscription :=
  subs.filter (fun sub => sub.event.blockNumber == block)

/-- Embedding of GetUnsubInBlock (src/api/api.go). -/
def GetUnsubInBlock (unsubs : List Unsubscription) (block : Nat) : List Unsubscription :=
  unsubs.filter (fun unsub => unsub.event.blockNumber == block)

/-- Embedding of the loop in ApplyNonFinalizedState that collects a block
number unless it was already collected. -/
def addBlockIfNew (l : List Nat) (block : Nat) : List Nat :=
  if block ∈ l then l else l ++ [block]

/-- Embedding of the first phase of ApplyNonFinalizedState: gather the
distinct block numbers of all events (subscriptions first, then
unsubscriptions), then sort them ascending. -/
def eventsBlocksList (subs : List Subscription) (unsubs : List Unsubscription) : List Nat :=
  let l1 := (subs.map (fun sub => sub.event.blockNumber)).foldl addBlockIfNew []
  let l2 := (unsubs.map (fun unsub => unsub.event.blockNumber)).foldl addBlockIfNew l1
  List.insertionSort (· ≤ ·) l2

/-- Embedding of the body of the per-block loop of ApplyNonFinalizedState:
all subscriptions of the block are applied first, in list order, then all
unsubscriptions of the block, in list order. -/
def processEventsInBlock (collateralInWei : Int) (subs : List Subscription)
    (unsubs : List Unsubscription) (m : ValidatorMap) (block : Nat) : Option ValidatorMap :=
  match foldOpt (applySubEvent collateralInWei) m (GetSubInBlock subs block) with
  | none => none
  | some m1 => foldOpt applyUnsubEvent m1 (GetUnsubInBlock unsubs block)

/-- Embedding of ApplyNonFinalizedState (src/api/api.go): the overlay replay
of head-of-chain subscription and unsubscription events over a copy of the
finalized validator map. -/
def ApplyNonFinalizedState (collateralInWei : Int) (subs : List Subscription)
    (unsubs : List Unsubscription) (m : ValidatorMap) : Option ValidatorMap :=
  foldOpt (processEventsInBlock collateralInWei subs unsubs) m (eventsBlocksList subs unsubs)

/-- Block classification produced by the block classifier (oracle.BlockType). -/
inductive BlockType where
  | missedProposal
  | okPoolProposal
  | okPoolProposalBlsKeys
  | wrongFeeRecipient
deriving DecidableEq, Repr

/-- Embedding of the oracle.Block record handed to AdvanceStateToNextSlot
(src/unnamed/part_001): the classified block of one slot. -/
structure Block where
  slot : Nat
  validatorIndex : Nat
  validatorKey : String
  blockType : BlockType
  reward : Int
  withdrawalAddress : String
deriving DecidableEq, Repr

/-- Embedding of an EtherReceived donation event. -/
structure Donation where
  amountWei : Int
  block : Nat
deriving DecidableEq, Repr

/-- Embedding of the oracle configuration fields the driver step reads. -/
structure OracleConfig where
  collateralInWei : Int
deriving DecidableEq, Repr

/-- Embedding of oracle.OracleState: the single value owned by the driver. -/
structure OracleState where
  latestSlot : Nat
  validators : ValidatorMap
  poolAccumulatedFees : Int
  poolFeesPercent : Nat
  poolAddress : String
  proposedBlocks : List Block
  missedBlocks : List Block
  wrongFeeBlocks : List Block
  donations : List Donation
deriving DecidableEq, Repr

/-- Statuses in which a validator is subscribed to the pool (spec section 3
invariant 4: Active, YellowCard and RedCard). -/
def isSubscribedStatus : ValidatorStatus → Bool
  | .active => true
  | .yellowCard => true
  | .redCard => true
  | _ => false

/-- Modelled from the spec: oracle.OracleState.IsValidatorSubscribed is not
under src/ (part_001 only calls it).  A validator is subscribed when it has a
record whose status is Active, YellowCard or RedCard. -/
def IsValidatorSubscribed (idx : Nat) (st : OracleState) : Bool :=
  match lookupVal st.validators idx with
  | some v => isSubscribedStatus v.validatorStatus
  | none => false

/-- Events of the per-validator state machine (spec section 4.3). -/
inductive StateMachineEvent where
  | proposalWithCorrectFee
  | proposalWithWrongFee
  | missedProposal
  | unbanValidator
  | manualSubscription
  | manualUnsubscription
deriving DecidableEq, Repr

/-- Modelled from the spec: the transition table of section 4.3 (the
oracle.AdvanceStateMachine body is not under src/).  A dash in the table is
modelled as staying put. -/
def nextStatus : ValidatorStatus → StateMachineEvent → ValidatorStatus
  | .untracked, .proposalWithCorrectFee => .active
  | .untracked, .manualSubscription => .active
  | .untracked, _ => .untracked
  | .notSubscribed, .proposalWithCorrectFee => .active
  | .notSubscribed, .manualSubscription => .active
  | .notSubscribed, _ => .notSubscribed
  | .active, .proposalWithCorrectFee => .active
  | .active, .proposalWithWrongFee => .banned
  | .active, .missedProposal => .yellowCard
  | .active, .unbanValidator => .active
  | .active, .manualSubscription => .active
  | .active, .manualUnsubscription => .notSubscribed
  | .yellowCard, .proposalWithCorrectFee => .active
  | .yellowCard, .proposalWithWrongFee => .banned
  | .yellowCard, .missedProposal => .redCard
  | .yellowCard, .unbanValidator => .yellowCard
  | .yellowCard, .manualSubscription => .yellowCard
  | .yellowCard, .manualUnsubscription => .notSubscribed
  | .redCard, .proposalWithCorrectFee => .yellowCard
  | .redCard, .proposalWithWrongFee => .banned
  | .redCard, .missedProposal => .redCard
  | .redCard, .unbanValidator => .redCard
  | .redCard, .manualSubscription => .redCard
  | .redCard, .manualUnsubscription => .notSubscribed
  | .banned, .unbanValidator => .active
  | .banned, _ => .banned

/-- Modelled from the spec: oracle.AdvanceStateMachine applies one transition
of the section 4.3 table to the record of one validator. -/
def AdvanceStateMachine (idx : Nat) (event : StateMachineEvent) (st : OracleState) : OracleState :=
  { st with validators := updateVal st.validators idx (fun v =>
      { v with validatorStatus := nextStatus v.validatorStatus event }) }

/-- Modelled from the spec: oracle.SendRewardToPool (section 4.4) adds the
amount to the accumulated pool fees. -/
def SendRewardToPool (amount : Int) (st : OracleState) : OracleState :=
  { st with poolAccumulatedFees := st.poolAccumulatedFees + amount }

/-- Number of currently subscribed validators. -/
def countSubscribed (m : ValidatorMap) : Nat :=
  (m.filter (fun kv => isSubscribedStatus kv.2.validatorStatus)).length

/-- Modelled from the spec: oracle.IncreaseAllPendingRewards (section 4.4).
A pool cut of floor(totalAmount * poolFeesPercent / 100) goes to the pool
fees; the rest is split evenly (integer floor) among subscribed validators,
the division remainder accruing to the pool fees.  With no subscribers the
whole amount goes to the pool fees. -/
def IncreaseAllPendingRewards (totalAmount : Int) (st : OracleState) : OracleState :=
  let poolCut := totalAmount * (st.poolFeesPercent : Int) / 100
  let toShare := totalAmount - poolCut
  let n := countSubscribed st.validators
  if n = 0 then
    { st with poolAccumulatedFees := st.poolAccumulatedFees + totalAmount }
  else
    { st with
      validators := st.validators.map (fun kv =>
        if isSubscribedStatus kv.2.validatorStatus then
          (kv.1, { kv.2 with pendingRewardsWei := kv.2.pendingRewardsWei + toShare / (n : Int) })
        else kv)
      poolAccumulatedFees := st.poolAccumulatedFees + poolCut + toShare % (n : Int) }

/-- Modelled from the spec: oracle.ConsolidateBalance (section 4.4) moves the
pending rewards of one validator into its accumulated rewards. -/
def ConsolidateBalance (idx : Nat) (st : OracleState) : OracleState :=
  { st with validators := updateVal st.validators idx (fun v =>
      { v with
        accumulatedRewardsWei := v.accumulatedRewardsWei + v.pendingRewardsWei
        pendingRewardsWei := 0 }) }

/-- Modelled from the spec: oracle.ResetPendingRewards (section 4.4)
redistributes the pending balance of one validator across all other
subscribed validators with the floor and remainder rule, then zeroes it. -/
def ResetPendingRewards (idx : Nat) (st : OracleState) : OracleState :=
  match lookupVal st.validators idx with
  | none => st
  | some val =>
    let p := val.pendingRewardsWei
    let n := (st.validators.filter (fun kv =>
      kv.1 ≠ idx ∧ isSubscribedStatus kv.2.validatorStatus)).length
    let st1 :=
      if n = 0 then
        { st with poolAccumulatedFees := st.poolAccumulatedFees + p }
      else
        { st with
          validators := st.validators.map (fun kv =>
            if kv.1 ≠ idx ∧ isSubscribedStatus kv.2.validatorStatus then
              (kv.1, { kv.2 with pendingRewardsWei := kv.2.pendingRewardsWei + p / (n : Int) })
            else kv)
          poolAccumulatedFees := st.poolAccumulatedFees + p % (n : Int) }
    { st1 with validators := updateVal st1.validators idx (fun v =>
        { v with pendingRewardsWei := 0 }) }

/-- Creation of a validator record on first observation (spec section 3
lifecycle), with Untracked status and empty balances. -/
def ensureValidatorRecord (idx : Nat) (m : ValidatorMap) : ValidatorMap :=
  match lookupVal m idx with
  | some _ => m
  | none => m ++ [(idx,
      { validatorStatus := ValidatorStatus.untracked
        accumulatedRewardsWei := 0
        pendingRewardsWei := 0
        collateralWei := 0
        withdrawalAddress := ""
        validatorKey := ""
        validatorIndex := idx
        proposedBlocksSlots := []
        missedBlocksSlots := []
        wrongFeeBlocksSlots := [] })]

/-- Modelled from the spec: one manual subscription of section 4.5 (the
oracle.HandleManualSubscriptions body is not under src/).  On satisfaction of
the three requirements the state machine fires ManualSubscription, the
collateral becomes pending credit and the identity fields are filled; on any
failure the collateral is lost to the pool fees. -/
def handleManualSubscription (collateralInWei : Int) (st : OracleState) (sub : Subscription) :
    OracleState :=
  let idx := sub.event.validatorID
  match sub.validator.eth1WithdrawalAddress with
  | none =>
    { st with poolAccumulatedFees := st.poolAccumulatedFees + sub.event.subscriptionCollateral }
  | some addr =>
    if asciiLower sub.event.sender = asciiLower addr ∧
        CanValidatorSubscribeToPool sub.validator = true ∧
        collateralInWei ≤ sub.event.subscriptionCollateral then
      let st1 := { st with validators := ensureValidatorRecord idx st.validators }
      let st2 := { st1 with validators := updateVal st1.validators idx (fun v =>
        { v with
          pendingRewardsWei := v.pendingRewardsWei + sub.event.subscriptionCollateral
          collateralWei := sub.event.subscriptionCollateral
          withdrawalAddress := addr
          validatorKey := sub.validator.pubkey }) }
      AdvanceStateMachine idx StateMachineEvent.manualSubscription st2
    else
      { st with poolAccumulatedFees := st.poolAccumulatedFees + sub.event.subscriptionCollateral }

/-- Modelled from the spec: oracle.HandleManualSubscriptions applies the
subscriptions of the slot in list order. -/
def HandleManualSubscriptions (collateralInWei : Int) (subs : List Subscription)
    (st : OracleState) : OracleState :=
  subs.foldl (handleManualSubscription collateralInWei) st

/-- Modelled from the spec: oracle.HandleMissedBlock records the missed slot
and fires MissedProposal (section 4.6 step 5). -/
def HandleMissedBlock (b : Block) (st : OracleState) : OracleState :=
  let st1 := { st with
    missedBlocks := st.missedBlocks ++ [b]
    validators := updateVal st.validators b.validatorIndex (fun v =>
      { v with missedBlocksSlots := v.missedBlocksSlots ++ [b.slot] }) }
  AdvanceStateMachine b.validatorIndex StateMachineEvent.missedProposal st1

/-- Modelled from the spec: oracle.HandleCorrectBlockProposal (section 4.6
step 6, OkPoolProposal): record the proposed block, fire
ProposalWithCorrectFee, share the reward and consolidate the proposer. -/
def HandleCorrectBlockProposal (b : Block) (st : OracleState) : OracleState :=
  let st1 := { st with validators := ensureValidatorRecord b.validatorIndex st.validators }
  let st2 := { st1 with
    proposedBlocks := st1.proposedBlocks ++ [b]
    validators := updateVal st1.validators b.validatorIndex (fun v =>
      { v with
        proposedBlocksSlots := v.proposedBlocksSlots ++ [b.slot]
        withdrawalAddress := b.withdrawalAddress
        validatorKey := b.validatorKey }) }
  let st3 := AdvanceStateMachine b.validatorIndex StateMachineEvent.proposalWithCorrectFee st2
  let st4 := IncreaseAllPendingRewards b.reward st3
  ConsolidateBalance b.validatorIndex st4

/-- Modelled from the spec: oracle.HandleBanValidator (section 4.6 step 6,
WrongFeeRecipient): record the wrong fee block, fire ProposalWithWrongFee and
redistribute the pending rewards of the banned proposer. -/
def HandleBanValidator (b : Block) (st : OracleState) : OracleState :=
  let st1 := { st with
    wrongFeeBlocks := st.wrongFeeBlocks ++ [b]
    validators := updateVal st.validators b.validatorIndex (fun v =>
      { v with wrongFeeBlocksSlots := v.wrongFeeBlocksSlots ++ [b.slot] }) }
  let st2 := AdvanceStateMachine b.validatorIndex StateMachineEvent.proposalWithWrongFee st1
  ResetPendingRewards b.validatorIndex st2

/-- Modelled from the spec: one manual unsubscription of section 4.5.  When
the sender matches the stored withdrawal address and the validator is
subscribed, the pending balance is redistributed and the state machine fires
ManualUnsubscription. -/
def handleManualUnsubscription (st : OracleState) (unsub : Unsubscription) : OracleState :=
  let idx := unsub.event.validatorID
  match lookupVal st.validators idx with
  | none => st
  | some val =>
    if asciiLower unsub.event.sender = asciiLower val.withdrawalAddress ∧
        isSubscribedStatus val.validatorStatus = true then
      AdvanceStateMachine idx StateMachineEvent.manualUnsubscription (ResetPendingRewards idx st)
    else st

/-- Modelled from the spec: oracle.HandleManualUnsubscriptions applies the
unsubscriptions of the slot in list order. -/
def HandleManualUnsubscriptions (unsubs : List Unsubscription) (st : OracleState) : OracleState :=
  unsubs.foldl handleManualUnsubscription st

/-- Modelled from the spec: oracle.HandleDonations adds each donated amount
to the pool fees and appends it to the donation list (section 4.5). -/
def HandleDonations (donations : List Donation) (st : OracleState) : OracleState :=
  donations.foldl (fun s d =>
    { s with
      poolAccumulatedFees := s.poolAccumulatedFees + d.amountWei
      donations := s.donations ++ [d] }) st

/-- Error message of validateParameters (src/unnamed/part_001). -/
def slotMismatchMessage (blockSlot : Nat) (oracleSlot : Nat) : String :=
  "Slot of blockPool is not the same as the latest slot of the oracle. BlockPool: " ++
    toString blockSlot ++ " Oracle: " ++ toString oracleSlot

/-- Embedding of validateParameters (src/unnamed/part_001): the only check is
that the classified block belongs to the slot the oracle is at. -/
def validateParameters (st : OracleState) (blockPool : Block) : Option String :=
  if blockPool.slot ≠ st.latestSlot then
    some (slotMismatchMessage blockPool.slot st.latestSlot)
  else none

/-- Embedding of the middle of AdvanceStateToNextSlot (src/unnamed/part_001
lines 44 to 68), mirroring the Go statement sequence: the missed-proposal
handling guarded by the subscription check, then, for an existing block, the
three classification branches in order. -/
def blockEffects (blockPool : Block) (s1 : OracleState) : OracleState :=
  let s2 :=
    if blockPool.blockType = BlockType.missedProposal ∧
        IsValidatorSubscribed blockPool.validatorIndex s1 = true then
      HandleMissedBlock blockPool s1
    else s1
  if blockPool.blockType ≠ BlockType.missedProposal then
    let t1 :=
      if blockPool.blockType = BlockType.okPoolProposalBlsKeys then
        SendRewardToPool blockPool.reward s2
      else s2
    let t2 :=
      if blockPool.blockType = BlockType.okPoolProposal then
        HandleCorrectBlockProposal blockPool t1
      else t1
    if blockPool.blockType = BlockType.wrongFeeRecipient ∧
        IsValidatorSubscribed blockPool.validatorIndex t2 = true then
      HandleBanValidator blockPool t2
    else t2
  else s2

/-- Embedding of AdvanceStateToNextSlot (src/unnamed/part_001), mirroring the
Go statement sequence: validate, subscriptions, block effects (missed
handling and classification branches), unsubscriptions, donations, slot
increment.  The returned pair is the (processed slot or error, new oracle
state); on error the Go method returns before mutating anything, so the input
state is returned unchanged. -/
def AdvanceStateToNextSlot (cfg : OracleConfig) (st : OracleState) (blockPool : Block)
    (blockSubs : List Subscription) (blockUnsubs : List Unsubscription)
    (blockDonations : List Donation) : Except String Nat × OracleState :=
  match validateParameters st blockPool with
  | some e => (Except.error e, st)
  | none =>
    let s1 := HandleManualSubscriptions cfg.collateralInWei blockSubs st
    let s3 := blockEffects blockPool s1
    let s4 := HandleManualUnsubscriptions blockUnsubs s3
    let s5 := HandleDonations blockDonations s4
    (Except.ok s5.latestSlot, { s5 with latestSlot := s5.latestSlot + 1 })

/-- Decomposed form of the block-classification phase of the per-slot step:
everything AdvanceStateToNextSlot does between the subscriptions and the
unsubscriptions.  Used to state the ordering claim. -/
def classificationPhase (blockPool : Block) (s : OracleState) : OracleState :=
  match blockPool.blockType with
  | BlockType.missedProposal =>
    if IsValidatorSubscribed blockPool.validatorIndex s = true then
      HandleMissedBlock blockPool s
    else s
  | BlockType.okPoolProposalBlsKeys => SendRewardToPool blockPool.reward s
  | BlockType.okPoolProposal => HandleCorrectBlockProposal blockPool s
  | BlockType.wrongFeeRecipient =>
    if IsValidatorSubscribed blockPool.validatorIndex s = true then
      HandleBanValidator blockPool s
    else s

/-- Embedding of one iteration of the driver main loop
(src/unnamed/part_000).  The call oracle.AdvanceStateToNextEpoch is not under
src/; modelled from the spec by its loop-relevant effect, advancing the
processed-slot counter by one (section 4.6 step 9, matching part_002 which
ends with LatestSlot = slotToProcess + 1).  The returned boolean tells
whether the iteration performs a checkpoint (state dump and Merkle-root
publication).  Go uint64 subtraction agrees with truncated Nat subtraction
here because the loop never runs with a slot below the deployment slot. -/
def mainLoopIteration (deployedSlot : Nat) (checkPointSizeInSlots : Nat)
    (finalizedSlot : Nat) (slot : Nat) : Nat × Bool :=
  let slot' := if finalizedSlot > slot then slot + 1 else slot
  (slot', (slot' - deployedSlot) % checkPointSizeInSlots == 0)

/-- Embedding of oracle.RawLeaf (pinned by the tests in src/unnamed/part_003):
one Merkle-tree leaf before hashing, a withdrawal (deposit) address and the
balance accumulated behind it. -/
structure RawLeaf where
  depositAddress : String
  accumulatedBalance : Int
deriving DecidableEq, Repr

/-- Sum of the balances of a list of raw leaves. -/
def sumBalances (l : List RawLeaf) : Int :=
  l.foldr (fun leaf acc => leaf.accumulatedBalance + acc) 0

/-- Fuel-indexed grouping of leaves by address: the group of the first
address (balances summed) followed by the grouping of the remaining
addresses.  The fuel only makes the recursion structural (the remaining list
is a filter, not a tail); it is always called with at least the list length,
so the fuel never runs out. -/
def aggregateFuel : Nat → List RawLeaf → List RawLeaf
  | _, [] => []
  | 0, _ :: _ => []
  | fuel + 1, leaf :: rest =>
    { depositAddress := leaf.depositAddress
      accumulatedBalance := leaf.accumulatedBalance +
        sumBalances (rest.filter (fun x => x.depositAddress == leaf.depositAddress)) } ::
    aggregateFuel fuel (rest.filter (fun x => !(x.depositAddress == leaf.depositAddress)))

/-- Modelled from the spec: the aggregation step of Merkleization (section
4.7 step 3; the oracle.Merklelizer body is not under src/, only its tests in
part_003).  Leaves are grouped by address, balances summed, groups listed in
order of first appearance. -/
def aggregateByAddress (l : List RawLeaf) : List RawLeaf :=
  aggregateFuel l.length l

/-- Ordering of raw leaves by deposit address, lexicographic on the character
sequences; on the ASCII hex addresses of the oracle this is the
byte-lexicographic order used in Go. -/
def leafLe (a b : RawLeaf) : Prop :=
  a.depositAddress.data ≤ b.depositAddress.data

instance : DecidableRel leafLe :=
  fun a b => inferInstanceAs (Decidable (a.depositAddress.data ≤ b.depositAddress.data))

instance : IsTotal RawLeaf leafLe :=
  ⟨fun a b => le_total a.depositAddress.data b.depositAddress.data⟩

instance : IsTrans RawLeaf leafLe :=
  ⟨fun _ _ _ h1 h2 => le_trans h1 h2⟩

/-- Modelled from the spec: oracle.Merklelizer.OrderByDepositAddress (section
4.7 step 4, pinned by Test_OrderByDepositAddress in part_003) sorts the
leaves ascending by address. -/
def OrderByDepositAddress (leafs : List RawLeaf) : List RawLeaf :=
  List.insertionSort leafLe leafs

/-- All raw leaves of a state before aggregation: the pool-fees leaf followed
by one leaf per validator record (spec section 4.7 steps 1 and 2). -/
def allRawLeaves (st : OracleState) : List RawLeaf :=
  { depositAddress := st.poolAddress
    accumulatedBalance := st.poolAccumulatedFees } ::
  st.validators.map (fun kv =>
    { depositAddress := kv.2.withdrawalAddress
      accumulatedBalance := kv.2.accumulatedRewardsWei })

/-- Modelled from the spec: oracle.Merklelizer.AggregateValidatorsIndexes
(section 4.7 steps 1 to 4; the implementation is not under src/, only its
tests in part_003).  A leaf per validator of the map plus a pool-fees leaf in
front, then aggregation by address and ordering.  The part_003 tests pin that
every validator record of the map contributes a leaf. -/
def AggregateValidatorsIndexes (state : OracleState) : List RawLeaf :=
  OrderByDepositAddress (aggregateByAddress (allRawLeaves state))

/-- Fields of a validator record that the non-finalized overlay must never
touch (spec section 4.8: only status and pendingRewardsWei may change). -/
def sameStableFields (a b : ValidatorInfo) : Prop :=
  a.accumulatedRewardsWei = b.accumulatedRewardsWei ∧
  a.collateralWei = b.collateralWei ∧
  a.withdrawalAddress = b.withdrawalAddress ∧
  a.validatorKey = b.validatorKey ∧
  a.validatorIndex = b.validatorIndex ∧
  a.proposedBlocksSlots = b.proposedBlocksSlots ∧
  a.missedBlocksSlots = b.missedBlocksSlots ∧
  a.wrongFeeBlocksSlots = b.wrongFeeBlocksSlots

/-- Frame relation between a map entry and its overlay image: same key, same
stable fields. -/
def frameEntry (kv kv' : Nat × ValidatorInfo) : Prop :=
  kv.1 = kv'.1 ∧ sameStableFields kv.2 kv'.2

/-- A tagged head-of-chain event, to express the overlay replay as one
totally ordered event stream. -/
inductive OverlayEvent where
  | sub (s : Subscription)
  | unsub (u : Unsubscription)
deriving DecidableEq, Repr

/-- Execution block number of a tagged overlay event. -/
def overlayEventBlock : OverlayEvent → Nat
  | .sub s => s.event.blockNumber
  | .unsub u => u.event.blockNumber

/-- One tagged overlay event applied to the validator map. -/
def applyOverlayEvent (collateralInWei : Int) (m : ValidatorMap) :
    OverlayEvent → Option ValidatorMap
  | .sub s => applySubEvent collateralInWei m s
  | .unsub u => applyUnsubEvent m u

/-- Replay of a list of tagged overlay events, one at a time, in list
order. -/
def replayEvents (collateralInWei : Int) (m : ValidatorMap) (es : List OverlayEvent) :
    Option ValidatorMap :=
  foldOpt (applyOverlayEvent collateralInWei) m es

/-- Subscription projection of a tagged event stream. -/
def subEventsOf (es : List OverlayEvent) : List Subscription :=
  es.filterMap (fun e => match e with | .sub s => some s | .unsub _ => none)

/-- Unsubscription projection of a tagged event stream. -/
def unsubEventsOf (es : List OverlayEvent) : List Unsubscription :=
  es.filterMap (fun e => match e with | .sub _ => none | .unsub u => some u)

/-- The event order ApplyNonFinalizedState actually replays: blocks in
ascending order and, inside one block, all subscriptions (in their list
order) before all unsubscriptions (in their list order). -/
def orderedOverlayEvents (subs : List Subscription) (unsubs : List Unsubscription) :
    List OverlayEvent :=
  (eventsBlocksList subs unsubs).flatMap (fun b =>
    (GetSubInBlock subs b).map OverlayEvent.sub ++
    (GetUnsubInBlock unsubs b).map OverlayEvent.unsub)

/-- Addresses of a list of raw leaves, in list order. -/
def leafAddresses (l : List RawLeaf) : List String :=
  l.map (fun leaf => leaf.depositAddress)

/-- Withdrawal (deposit) addresses of the validator records of a state. -/
def validatorAddresses (st : OracleState) : List String :=
  st.validators.map (fun kv => kv.2.withdrawalAddress)

/-- Sum of the accumulated rewards of the validators of a state whose
withdrawal (deposit) address is the given one. -/
def sumAccumulatedAt (st : OracleState) (a : String) : Int :=
  ((st.validators.filter (fun kv => kv.2.withdrawalAddress == a)).map
    (fun kv => kv.2.accumulatedRewardsWei)).sum

/-- A fresh validator record with one field set each, used for concrete
instantiations of the theorems. -/
def mkValidator (status : ValidatorStatus) (addr : String) (acc pend : Int) : ValidatorInfo :=
  { validatorStatus := status
    accumulatedRewardsWei := acc
    pendingRewardsWei := pend
    collateralWei := 0
    withdrawalAddress := addr
    validatorKey := ""
    validatorIndex := 0
    proposedBlocksSlots := []
    missedBlocksSlots := []
    wrongFeeBlocksSlots := [] }

/-- A concrete oracle state used to instantiate the per-slot-step theorems. -/
def sampleState : OracleState :=
  { latestSlot := 0
    validators := [(7, mkValidator ValidatorStatus.active "0xaaaa" 50 20)]
    poolAccumulatedFees := 3
    poolFeesPercent := 0
    poolAddress := "0x0000"
    proposedBlocks := []
    missedBlocks := []
    wrongFeeBlocks := []
    donations := [] }

/-- A concrete classified block used to instantiate the per-slot-step
theorems. -/
def mkBlock (slot : Nat) (idx : Nat) (bt : BlockType) (reward : Int) : Block :=
  { slot := slot
    validatorIndex := idx
    validatorKey := ""
    blockType := bt
    reward := reward
    withdrawalAddress := "0xaaaa" }

/-- A concrete overlay validator map with one tracked validator. -/
def sampleMap : ValidatorMap :=
  [(1, mkValidator ValidatorStatus.notSubscribed "0xabcd" 11 5)]

/-- A concrete subscription event matching sampleMap, sent from the stored
withdrawal address with sufficient collateral. -/
def sampleSub : Subscription :=
  { event :=
      { validatorID := 1
        subscriptionCollateral := 1000
        sender := "0xABCD"
        blockNumber := 6 }
    validator :=
      { index := 1
        status := BeaconValidatorState.activeOngoing
        pubkey := ""
        eth1WithdrawalAddress := some "0xabcd" } }

/-- A concrete unsubscription event matching sampleMap, for the same
validator and block as sampleSub. -/
def sampleUnsub : Unsubscription :=
  { event :=
      { validatorID := 1
        sender := "0xabcd"
        blockNumber := 6 }
    validator :=
      { index := 1
        status := BeaconValidatorState.activeOngoing
        pubkey := ""
        eth1WithdrawalAddress := some "0xabcd" } }

/-- A concrete overlay map whose single validator is Active, used for the
interleaving counterexample. -/
def activeMap : ValidatorMap :=
  [(1, mkValidator ValidatorStatus.active "0xabcd" 11 5)]

/-- A concrete oracle state whose single validator address sorts strictly
below the pool address, used to refute the position-0 part of the
aggregation claim. -/
def cexAggState : OracleState :=
  { latestSlot := 0
    validators := [(0, mkValidator ValidatorStatus.active "0xaaaa" 5 0)]
    poolAccumulatedFees := 7
    poolFeesPercent := 0
    poolAddress := "0xbbbb"
    proposedBlocks := []
    missedBlocks := []
    wrongFeeBlocks := []
    donations := [] }

/-- Claim C9: for equal-length strings AreAddressEqual answers exactly the
equality of the two strings after ASCII lowercasing, and for strings of
different lengths it never returns (log.Fatal aborts the process, modelled as
none), so the false-for-different-length branch is unreachable. -/
theorem areAddressEqual_ascii_spec (a b : String) :
    (a.length = b.length →
      AreAddressEqual a b = some (decide (asciiLower a = asciiLower b))) ∧
    (a.length ≠ b.length → AreAddressEqual a b = none) := by
  constructor
  · intro h
    unfold AreAddressEqual
    by_cases hx : asciiLower a = asciiLower b <;> simp [h, hx]
  · intro h
    unfold AreAddressEqual
    simp [h]

/-- Witness for claim C9 at concrete inputs. -/
theorem areAddressEqual_ascii_spec_witness :
    AreAddressEqual "0xAB" "0xab" = some true ∧ AreAddressEqual "0xAB" "0xab0" = none := by
  constructor
  · have h := (areAddressEqual_ascii_spec "0xAB" "0xab").1 (by decide)
    rw [h]
    decide
  · exact (areAddressEqual_ascii_spec "0xAB" "0xab0").2 (by decide)

/-- Claim C2: when the classified block carries a slot different from the
oracle state's latest slot, AdvanceStateToNextSlot returns an error and the
oracle state is returned completely unchanged. -/
theorem advanceStateToNextSlot_slot_mismatch (cfg : OracleConfig) (st : OracleState)
    (bp : Block) (subs : List Subscription) (unsubs : List Unsubscription)
    (dons : List Donation) (h : bp.slot ≠ st.latestSlot) :
    AdvanceStateToNextSlot cfg st bp subs unsubs dons =
      (Except.error (slotMismatchMessage bp.slot st.latestSlot), st) := by
  unfold AdvanceStateToNextSlot validateParameters
  simp [h]

/-- Witness for claim C2 at concrete inputs. -/
theorem advanceStateToNextSlot_slot_mismatch_witness :
    AdvanceStateToNextSlot { collateralInWei := 1000 } sampleState
        (mkBlock 5 7 BlockType.okPoolProposal 100) [] [] [] =
      (Except.error (slotMismatchMessage 5 0), sampleState) :=
  advanceStateToNextSlot_slot_mismatch { collateralInWei := 1000 } sampleState
    (mkBlock 5 7 BlockType.okPoolProposal 100) [] [] [] (by decide)

/-- Claim C8 (code bug): the main loop decides a checkpoint from the slot
counter alone, so at a checkpoint boundary an iteration that processed no
slot (the waiting branch, finalizedSlot not ahead of the oracle) still
performs the checkpoint, and does so again on the next such iteration:
checkpoints fire with zero slots processed since the previous checkpoint,
against the claim. -/
theorem mainLoopIteration_checkpoints_without_progress :
    mainLoopIteration 0 10 10 10 = (10, true) ∧
    mainLoopIteration 0 10 10 (mainLoopIteration 0 10 10 10).1 = (10, true) :=
  ⟨rfl, rfl⟩

theorem latestSlot_AdvanceStateMachine (idx : Nat) (e : StateMachineEvent) (st : OracleState) :
    (AdvanceStateMachine idx e st).latestSlot = st.latestSlot := rfl

theorem latestSlot_SendRewardToPool (r : Int) (st : OracleState) :
    (SendRewardToPool r st).latestSlot = st.latestSlot := rfl

theorem latestSlot_ConsolidateBalance (idx : Nat) (st : OracleState) :
    (ConsolidateBalance idx st).latestSlot = st.latestSlot := rfl

theorem latestSlot_IncreaseAllPendingRewards (r : Int) (st : OracleState) :
    (IncreaseAllPendingRewards r st).latestSlot = st.latestSlot := by
  unfold IncreaseAllPendingRewards
  dsimp only
  split <;> rfl

theorem latestSlot_ResetPendingRewards (idx : Nat) (st : OracleState) :
    (ResetPendingRewards idx st).latestSlot = st.latestSlot := by
  unfold ResetPendingRewards
  cases lookupVal st.validators idx with
  | none => rfl
  | some val =>
    dsimp only
    split <;> rfl

theorem latestSlot_handleManualSubscription (c : Int) (st : OracleState) (sub : Subscription) :
    (handleManualSubscription c st sub).latestSlot = st.latestSlot := by
  unfold handleManualSubscription
  cases sub.validator.eth1WithdrawalAddress with
  | none => rfl
  | some addr =>
    dsimp only
    split <;> rfl

theorem latestSlot_HandleManualSubscriptions (c : Int) (subs : List Subscription)
    (st : OracleState) :
    (HandleManualSubscriptions c subs st).latestSlot = st.latestSlot := by
  induction subs generalizing st with
  | nil => rfl
  | cons a l ih =>
    calc (HandleManualSubscriptions c (a :: l) st).latestSlot
        = (HandleManualSubscriptions c l (handleManualSubscription c st a)).latestSlot := rfl
      _ = (handleManualSubscription c st a).latestSlot := ih _
      _ = st.latestSlot := latestSlot_handleManualSubscription c st a

theorem latestSlot_handleManualUnsubscription (st : OracleState) (unsub : Unsubscription) :
    (handleManualUnsubscription st unsub).latestSlot = st.latestSlot := by
  unfold handleManualUnsubscription
  dsimp only
  split
  · rfl
  · split
    · exact latestSlot_ResetPendingRewards _ _
    · rfl

theorem latestSlot_HandleManualUnsubscriptions (unsubs : List Unsubscription)
    (st : OracleState) :
    (HandleManualUnsubscriptions unsubs st).latestSlot = st.latestSlot := by
  induction unsubs generalizing st with
  | nil => rfl
  | cons a l ih =>
    calc (HandleManualUnsubscriptions (a :: l) st).latestSlot
        = (HandleManualUnsubscriptions l (handleManualUnsubscription st a)).latestSlot := rfl
      _ = (handleManualUnsubscription st a).latestSlot := ih _
      _ = st.latestSlot := latestSlot_handleManualUnsubscription st a

theorem latestSlot_HandleDonations (dons : List Donation) (st : OracleState) :
    (HandleDonations dons st).latestSlot = st.latestSlot := by
  induction dons generalizing st with
  | nil => rfl
  | cons a l ih =>
    calc (HandleDonations (a :: l) st).latestSlot
        = (HandleDonations l _).latestSlot := rfl
      _ = _ := ih _

theorem latestSlot_HandleMissedBlock (b : Block) (st : OracleState) :
    (HandleMissedBlock b st).latestSlot = st.latestSlot := rfl

theorem latestSlot_HandleCorrectBlockProposal (b : Block) (st : OracleState) :
    (HandleCorrectBlockProposal b st).latestSlot = st.latestSlot := by
  unfold HandleCorrectBlockProposal
  dsimp only
  rw [latestSlot_ConsolidateBalance, latestSlot_IncreaseAllPendingRewards]
  rfl

theorem latestSlot_HandleBanValidator (b : Block) (st : OracleState) :
    (HandleBanValidator b st).latestSlot = st.latestSlot := by
  unfold HandleBanValidator
  dsimp only
  rw [latestSlot_ResetPendingRewards]
  rfl

theorem latestSlot_classificationPhase (bp : Block) (s : OracleState) :
    (classificationPhase bp s).latestSlot = s.latestSlot := by
  unfold classificationPhase
  split
  · split <;> rfl
  · rfl
  · exact latestSlot_HandleCorrectBlockProposal _ _
  · split
    · exact latestSlot_HandleBanValidator _ _
    · rfl

theorem blockEffects_eq_classificationPhase (bp : Block) (s1 : OracleState) :
    blockEffects bp s1 = classificationPhase bp s1 := by
  cases hbt : bp.blockType <;>
    simp [blockEffects, classificationPhase, hbt]

/-- Claim C1: under the slot validation, the per-slot step applies the
subscriptions first, then the block-classification effects (where a missed
proposal is handled only when the proposer is subscribed at that point), then
the unsubscriptions, then the donations, and finally increments the oracle's
latest slot by exactly one, returning the processed slot. -/
theorem advanceStateToNextSlot_ordering (cfg : OracleConfig) (st : OracleState) (bp : Block)
    (subs : List Subscription) (unsubs : List Unsubscription) (dons : List Donation)
    (h : bp.slot = st.latestSlot) :
    AdvanceStateToNextSlot cfg st bp subs unsubs dons =
      (Except.ok st.latestSlot,
        { HandleDonations dons (HandleManualUnsubscriptions unsubs
            (classificationPhase bp (HandleManualSubscriptions cfg.collateralInWei subs st)))
          with latestSlot := st.latestSlot + 1 }) ∧
    (∀ s : OracleState, bp.blockType = BlockType.missedProposal →
      IsValidatorSubscribed bp.validatorIndex s = false → classificationPhase bp s = s) ∧
    (AdvanceStateToNextSlot cfg st bp subs unsubs dons).2.latestSlot = st.latestSlot + 1 := by
  have hval : validateParameters st bp = none := by
    simp [validateParameters, h]
  have hls : (HandleDonations dons (HandleManualUnsubscriptions unsubs
      (classificationPhase bp
        (HandleManualSubscriptions cfg.collateralInWei subs st)))).latestSlot = st.latestSlot := by
    rw [latestSlot_HandleDonations, latestSlot_HandleManualUnsubscriptions,
      latestSlot_classificationPhase, latestSlot_HandleManualSubscriptions]
  have hmain : AdvanceStateToNextSlot cfg st bp subs unsubs dons =
      (Except.ok st.latestSlot,
        { HandleDonations dons (HandleManualUnsubscriptions unsubs
            (classificationPhase bp (HandleManualSubscriptions cfg.collateralInWei subs st)))
          with latestSlot := st.latestSlot + 1 }) := by
    unfold AdvanceStateToNextSlot
    rw [hval]
    dsimp only
    rw [blockEffects_eq_classificationPhase, hls]
  refine ⟨hmain, ?_, ?_⟩
  · intro s hbt hsub
    simp [classificationPhase, hbt, hsub]
  · rw [hmain]

/-- Witness for claim C1 at concrete inputs: a missed proposal of an
unsubscribed validator on a matching slot. -/
theorem advanceStateToNextSlot_ordering_witness :
    (AdvanceStateToNextSlot { collateralInWei := 1000 } sampleState
      (mkBlock 0 9 BlockType.missedProposal 0) [] [] []).2.latestSlot =
      sampleState.latestSlot + 1 :=
  (advanceStateToNextSlot_ordering { collateralInWei := 1000 } sampleState
    (mkBlock 0 9 BlockType.missedProposal 0) [] [] [] (by decide)).2.2

/-- Claim C7: on an OkPoolProposalBlsKeys block the only classification
effect of the per-slot step is SendRewardToPool, which adds the block reward
to the accumulated pool fees and changes nothing else of the state; with no
events in the block the whole step changes exactly the pool fees and the slot
counter. -/
theorem advanceStateToNextSlot_blsKeys (cfg : OracleConfig) (st : OracleState) (bp : Block)
    (subs : List Subscription) (unsubs : List Unsubscription) (dons : List Donation)
    (h : bp.slot = st.latestSlot) (hbt : bp.blockType = BlockType.okPoolProposalBlsKeys) :
    AdvanceStateToNextSlot cfg st bp subs unsubs dons =
      (Except.ok st.latestSlot,
        { HandleDonations dons (HandleManualUnsubscriptions unsubs
            (SendRewardToPool bp.reward (HandleManualSubscriptions cfg.collateralInWei subs st)))
          with latestSlot := st.latestSlot + 1 }) ∧
    (∀ r : Int, ∀ s : OracleState, SendRewardToPool r s =
      { s with poolAccumulatedFees := s.poolAccumulatedFees + r }) ∧
    (subs = [] → unsubs = [] → dons = [] →
      (AdvanceStateToNextSlot cfg st bp subs unsubs dons).2 =
        { st with
            poolAccumulatedFees := st.poolAccumulatedFees + bp.reward
            latestSlot := st.latestSlot + 1 }) := by
  have hcp : classificationPhase bp (HandleManualSubscriptions cfg.collateralInWei subs st) =
      SendRewardToPool bp.reward (HandleManualSubscriptions cfg.collateralInWei subs st) := by
    simp [classificationPhase, hbt]
  have hmain := (advanceStateToNextSlot_ordering cfg st bp subs unsubs dons h).1
  rw [hcp] at hmain
  refine ⟨hmain, fun r s => rfl, ?_⟩
  · intro hs hu hd
    subst hs; subst hu; subst hd
    rw [hmain]
    rfl

/-- Witness for claim C7 at concrete inputs. -/
theorem advanceStateToNextSlot_blsKeys_witness :
    (AdvanceStateToNextSlot { collateralInWei := 1000 } sampleState
      (mkBlock 0 7 BlockType.okPoolProposalBlsKeys 500) [] [] []).2 =
      { sampleState with
          poolAccumulatedFees := sampleState.poolAccumulatedFees + 500
          latestSlot := sampleState.latestSlot + 1 } :=
  (advanceStateToNextSlot_blsKeys { collateralInWei := 1000 } sampleState
    (mkBlock 0 7 BlockType.okPoolProposalBlsKeys 500) [] [] [] (by decide) (by decide)).2.2
    rfl rfl rfl

theorem sameStableFields_refl (v : ValidatorInfo) : sameStableFields v v :=
  ⟨rfl, rfl, rfl, rfl, rfl, rfl, rfl, rfl⟩

theorem sameStableFields_trans {a b c : ValidatorInfo}
    (h1 : sameStableFields a b) (h2 : sameStableFields b c) : sameStableFields a c := by
  obtain ⟨x1, x2, x3, x4, x5, x6, x7, x8⟩ := h1
  obtain ⟨y1, y2, y3, y4, y5, y6, y7, y8⟩ := h2
  exact ⟨x1.trans y1, x2.trans y2, x3.trans y3, x4.trans y4,
    x5.trans y5, x6.trans y6, x7.trans y7, x8.trans y8⟩

theorem frameEntry_refl (kv : Nat × ValidatorInfo) : frameEntry kv kv :=
  ⟨rfl, sameStableFields_refl kv.2⟩

theorem frameEntry_trans {a b c : Nat × ValidatorInfo}
    (h1 : frameEntry a b) (h2 : frameEntry b c) : frameEntry a c :=
  ⟨h1.1.trans h2.1, sameStableFields_trans h1.2 h2.2⟩

theorem forall₂_frame_refl (m : ValidatorMap) : List.Forall₂ frameEntry m m := by
  induction m with
  | nil => exact List.Forall₂.nil
  | cons kv t ih => exact List.Forall₂.cons (frameEntry_refl kv) ih

theorem forall₂_frame_trans {a b c : ValidatorMap}
    (h1 : List.Forall₂ frameEntry a b) (h2 : List.Forall₂ frameEntry b c) :
    List.Forall₂ frameEntry a c := by
  induction h1 generalizing c with
  | nil => cases h2; exact List.Forall₂.nil
  | cons hh ht ih =>
    cases h2 with
    | cons hh2 ht2 => exact List.Forall₂.cons (frameEntry_trans hh hh2) (ih ht2)

theorem frame_updateVal (m : ValidatorMap) (k : Nat) (f : ValidatorInfo → ValidatorInfo)
    (hf : ∀ v, sameStableFields v (f v)) :
    List.Forall₂ frameEntry m (updateVal m k f) := by
  induction m with
  | nil => exact List.Forall₂.nil
  | cons kv t ih =>
    have hdef : updateVal (kv :: t) k f =
        (if kv.1 = k then (kv.1, f kv.2) else kv) :: updateVal t k f := rfl
    rw [hdef]
    refine List.Forall₂.cons ?_ ih
    split
    · exact ⟨rfl, hf kv.2⟩
    · exact frameEntry_refl kv

theorem frame_applySubEvent (c : Int) (m : ValidatorMap) (sub : Subscription)
    (m' : ValidatorMap) (h : applySubEvent c m sub = some m') :
    List.Forall₂ frameEntry m m' := by
  have hupd : List.Forall₂ frameEntry m (updateVal m sub.event.validatorID (fun v =>
      { v with
        validatorStatus := ValidatorStatus.active
        pendingRewardsWei := v.pendingRewardsWei + sub.event.subscriptionCollateral })) :=
    frame_updateVal m _ _ (fun v => ⟨rfl, rfl, rfl, rfl, rfl, rfl, rfl, rfl⟩)
  unfold applySubEvent at h
  split at h
  · injection h with h1; subst h1; exact forall₂_frame_refl _
  · split at h
    · exact Option.noConfusion h
    · split at h
      · split at h
        · split at h
          · split at h
            · injection h with h1; subst h1; exact hupd
            · injection h with h1; subst h1; exact forall₂_frame_refl _
          · injection h with h1; subst h1; exact forall₂_frame_refl _
        · injection h with h1; subst h1; exact forall₂_frame_refl _
      · injection h with h1; subst h1; exact forall₂_frame_refl _

theorem frame_applyUnsubEvent (m : ValidatorMap) (unsub : Unsubscription)
    (m' : ValidatorMap) (h : applyUnsubEvent m unsub = some m') :
    List.Forall₂ frameEntry m m' := by
  have hupd : List.Forall₂ frameEntry m (updateVal m unsub.event.validatorID (fun v =>
      { v with
        validatorStatus := ValidatorStatus.notSubscribed
        pendingRewardsWei := 0 })) :=
    frame_updateVal m _ _ (fun v => ⟨rfl, rfl, rfl, rfl, rfl, rfl, rfl, rfl⟩)
  unfold applyUnsubEvent at h
  split at h
  · injection h with h1; subst h1; exact forall₂_frame_refl _
  · split at h
    · exact Option.noConfusion h
    · split at h
      · split at h
        · injection h with h1; subst h1; exact hupd
        · injection h with h1; subst h1; exact forall₂_frame_refl _
      · injection h with h1; subst h1; exact forall₂_frame_refl _

theorem frame_foldOpt {α : Type} {f : ValidatorMap → α → Option ValidatorMap}
    (hf : ∀ m0 a m0', f m0 a = some m0' → List.Forall₂ frameEntry m0 m0')
    (m : ValidatorMap) (l : List α) (m' : ValidatorMap)
    (h : foldOpt f m l = some m') : List.Forall₂ frameEntry m m' := by
  induction l generalizing m with
  | nil =>
    injection h with h1
    subst h1
    exact forall₂_frame_refl _
  | cons a t ih =>
    cases hfa : f m a with
    | none =>
      simp only [foldOpt, hfa] at h
      exact Option.noConfusion h
    | some m1 =>
      simp only [foldOpt, hfa] at h
      exact forall₂_frame_trans (hf m a m1 hfa) (ih m1 h)

theorem frame_processEventsInBlock (c : Int) (subs : List Subscription)
    (unsubs : List Unsubscription) (m : ValidatorMap) (b : Nat) (m' : ValidatorMap)
    (h : processEventsInBlock c subs unsubs m b = some m') :
    List.Forall₂ frameEntry m m' := by
  unfold processEventsInBlock at h
  cases h1 : foldOpt (applySubEvent c) m (GetSubInBlock subs b) with
  | none => rw [h1] at h; exact Option.noConfusion h
  | some m1 =>
    rw [h1] at h
    exact forall₂_frame_trans
      (frame_foldOpt (fun m0 a m0' => frame_applySubEvent c m0 a m0') m _ m1 h1)
      (frame_foldOpt (fun m0 a m0' => frame_applyUnsubEvent m0 a m0') m1 _ m' h)

theorem frame_applyNonFinalizedState_aux (c : Int) (subs : List Subscription)
    (unsubs : List Unsubscription) (m : ValidatorMap) (m' : ValidatorMap)
    (h : ApplyNonFinalizedState c subs unsubs m = some m') :
    List.Forall₂ frameEntry m m' := by
  unfold ApplyNonFinalizedState at h
  exact frame_foldOpt
    (fun m0 b m0' => frame_processEventsInBlock c subs unsubs m0 b m0') m _ m' h

theorem forall₂_frame_keys {m m' : ValidatorMap}
    (h : List.Forall₂ frameEntry m m') : m'.map Prod.fst = m.map Prod.fst := by
  induction h with
  | nil => rfl
  | cons hh ht ih =>
    simp only [List.map_cons, ih, hh.1]

/-- Claim C4: the overlay replay mutates at most the status and pending
rewards of the map entries; every entry keeps its key, its accumulated
rewards, collateral, withdrawal address, validator key, validator index and
its three per-validator slot lists. -/
theorem applyNonFinalizedState_frame (c : Int) (subs : List Subscription)
    (unsubs : List Unsubscription) (m m' : ValidatorMap)
    (h : ApplyNonFinalizedState c subs unsubs m = some m') :
    List.Forall₂ frameEntry m m' :=
  frame_applyNonFinalizedState_aux c subs unsubs m m' h

/-- Witness for claim C4 at concrete inputs: a successful subscription only
moves status and pending rewards. -/
theorem applyNonFinalizedState_frame_witness :
    List.Forall₂ frameEntry sampleMap
      [(1, mkValidator ValidatorStatus.active "0xabcd" 11 1005)] :=
  applyNonFinalizedState_frame 1000 [sampleSub] [] sampleMap
    [(1, mkValidator ValidatorStatus.active "0xabcd" 11 1005)] (by rfl)

theorem lookupVal_eq_none_of_not_mem (m : ValidatorMap) (k : Nat)
    (h : k ∉ m.map Prod.fst) : lookupVal m k = none := by
  induction m with
  | nil => rfl
  | cons kv t ih =>
    simp only [List.map_cons, List.mem_cons, not_or] at h
    have hne : ¬(kv.1 = k) := fun he => h.1 he.symm
    simp [lookupVal, hne, ih h.2]

/-- Claim C10: the overlay replay never adds or removes keys: an event whose
validator index is not a key of the map leaves the map unchanged, and the key
list of the produced map equals the key list of the input map. -/
theorem applyNonFinalizedState_keyset (c : Int) (subs : List Subscription)
    (unsubs : List Unsubscription) (m m' : ValidatorMap) :
    (∀ sub : Subscription, ∀ m0 : ValidatorMap, sub.event.validatorID ∉ m0.map Prod.fst →
      applySubEvent c m0 sub = some m0) ∧
    (∀ unsub : Unsubscription, ∀ m0 : ValidatorMap, unsub.event.validatorID ∉ m0.map Prod.fst →
      applyUnsubEvent m0 unsub = some m0) ∧
    (ApplyNonFinalizedState c subs unsubs m = some m' →
      m'.map Prod.fst = m.map Prod.fst) := by
  refine ⟨?_, ?_, ?_⟩
  · intro sub m0 h
    unfold applySubEvent
    rw [lookupVal_eq_none_of_not_mem m0 _ h]
  · intro unsub m0 h
    unfold applyUnsubEvent
    rw [lookupVal_eq_none_of_not_mem m0 _ h]
  · intro h
    exact forall₂_frame_keys (frame_applyNonFinalizedState_aux c subs unsubs m m' h)

/-- Witness for claim C10 at concrete inputs: an event for an unknown index
is ignored, and a successful subscription keeps the key list. -/
theorem applyNonFinalizedState_keyset_witness :
    applySubEvent 1000 sampleMap
      { sampleSub with event := { sampleSub.event with validatorID := 99 } } = some sampleMap ∧
    ([(1, mkValidator ValidatorStatus.active "0xabcd" 11 1005)] : ValidatorMap).map Prod.fst =
      sampleMap.map Prod.fst := by
  constructor
  · exact (applyNonFinalizedState_keyset 1000 [] [] sampleMap sampleMap).1
      { sampleSub with event := { sampleSub.event with validatorID := 99 } } sampleMap (by decide)
  · exact (applyNonFinalizedState_keyset 1000 [sampleSub] [] sampleMap
      [(1, mkValidator ValidatorStatus.active "0xabcd" 11 1005)]).2.2 (by rfl)

theorem foldOpt_single {σ α : Type} (f : σ → α → Option σ) (s : σ) (a : α) :
    foldOpt f s [a] = f s a := by
  cases h : f s a <;> simp [foldOpt, h]

theorem applyNonFinalizedState_single_sub (c : Int) (sub : Subscription) (m : ValidatorMap) :
    ApplyNonFinalizedState c [sub] [] m = applySubEvent c m sub := by
  have hblocks : eventsBlocksList [sub] [] = [sub.event.blockNumber] := rfl
  have hsubs : GetSubInBlock [sub] sub.event.blockNumber = [sub] := by
    simp [GetSubInBlock]
  unfold ApplyNonFinalizedState
  rw [hblocks, foldOpt_single]
  unfold processEventsInBlock
  rw [hsubs, foldOpt_single]
  cases hsa : applySubEvent c m sub with
  | none => rfl
  | some m1 => rfl

theorem lookupVal_updateVal (m : ValidatorMap) (k : Nat) (f : ValidatorInfo → ValidatorInfo) :
    lookupVal (updateVal m k f) k = (lookupVal m k).map f := by
  induction m with
  | nil => rfl
  | cons kv t ih =>
    by_cases hk : kv.1 = k
    · simp [updateVal, lookupVal, hk]
    · simp only [updateVal, List.map_cons] at ih ⊢
      simp [lookupVal, hk, ih]

/-- Claim C5: a subscription event processed by the overlay changes a tracked
validator's entry exactly when the sender matches the stored withdrawal
address case-insensitively, the collateral reaches the configured bar, the
beacon-side validator can still subscribe and the status is Untracked or
NotSubscribed; then the status becomes Active and pending rewards grow by
exactly the collateral, and in every other case the map is unchanged.  The
hypotheses: the validator is tracked and the two compared strings have equal
length (otherwise the Go process aborts in AreAddressEqual). -/
theorem applySubEvent_subscription_iff (c : Int) (m : ValidatorMap) (sub : Subscription)
    (val : ValidatorInfo)
    (hfound : lookupVal m sub.event.validatorID = some val)
    (hlen : val.withdrawalAddress.length = sub.event.sender.length) :
    ApplyNonFinalizedState c [sub] [] m = applySubEvent c m sub ∧
    ((asciiLower val.withdrawalAddress = asciiLower sub.event.sender ∧
      c ≤ sub.event.subscriptionCollateral ∧
      CanValidatorSubscribeToPool sub.validator = true ∧
      (val.validatorStatus = ValidatorStatus.untracked ∨
        val.validatorStatus = ValidatorStatus.notSubscribed)) →
      applySubEvent c m sub = some (updateVal m sub.event.validatorID (fun v =>
        { v with
          validatorStatus := ValidatorStatus.active
          pendingRewardsWei := v.pendingRewardsWei + sub.event.subscriptionCollateral })) ∧
      lookupVal (updateVal m sub.event.validatorID (fun v =>
        { v with
          validatorStatus := ValidatorStatus.active
          pendingRewardsWei := v.pendingRewardsWei + sub.event.subscriptionCollateral }))
        sub.event.validatorID =
        some { val with
          validatorStatus := ValidatorStatus.active
          pendingRewardsWei := val.pendingRewardsWei + sub.event.subscriptionCollateral } ∧
      { val with
        validatorStatus := ValidatorStatus.active
        pendingRewardsWei := val.pendingRewardsWei + sub.event.subscriptionCollateral } ≠ val) ∧
    (¬(asciiLower val.withdrawalAddress = asciiLower sub.event.sender ∧
      c ≤ sub.event.subscriptionCollateral ∧
      CanValidatorSubscribeToPool sub.validator = true ∧
      (val.validatorStatus = ValidatorStatus.untracked ∨
        val.validatorStatus = ValidatorStatus.notSubscribed)) →
      applySubEvent c m sub = some m) := by
  have haddr : AreAddressEqual val.withdrawalAddress sub.event.sender =
      some (decide (asciiLower val.withdrawalAddress = asciiLower sub.event.sender)) := by
    unfold AreAddressEqual
    by_cases hx : asciiLower val.withdrawalAddress = asciiLower sub.event.sender <;>
      simp [hlen, hx]
  refine ⟨applyNonFinalizedState_single_sub c sub m, ?_, ?_⟩
  · rintro ⟨ha, hc, hcan, hst⟩
    refine ⟨?_, ?_, ?_⟩
    · unfold applySubEvent
      rw [hfound]
      dsimp only
      rw [haddr]
      simp [ha, hc, hcan, hst]
    · rw [lookupVal_updateVal, hfound]
      rfl
    · intro hEq
      have hstat : ValidatorStatus.active = val.validatorStatus :=
        congrArg ValidatorInfo.validatorStatus hEq
      cases hst with
      | inl h0 => rw [h0] at hstat; exact ValidatorStatus.noConfusion hstat
      | inr h0 => rw [h0] at hstat; exact ValidatorStatus.noConfusion hstat
  · intro hneg
    unfold applySubEvent
    rw [hfound]
    dsimp only
    rw [haddr]
    by_cases ha : asciiLower val.withdrawalAddress = asciiLower sub.event.sender
    · by_cases hc : c ≤ sub.event.subscriptionCollateral
      · by_cases hcan : CanValidatorSubscribeToPool sub.validator = true
        · by_cases hst : (val.validatorStatus = ValidatorStatus.untracked ∨
              val.validatorStatus = ValidatorStatus.notSubscribed)
          · exact absurd ⟨ha, hc, hcan, hst⟩ hneg
          · simp [ha, hc, hcan, hst]
        · simp [ha, hc, hcan]
      · simp [ha, hc]
    · simp [ha]

/-- Witness for claim C5 at concrete inputs: the valid-subscription row of
the part_004 test vector. -/
theorem applySubEvent_subscription_iff_witness :
    applySubEvent 1000 sampleMap sampleSub =
      some (updateVal sampleMap sampleSub.event.validatorID (fun v =>
        { v with
          validatorStatus := ValidatorStatus.active
          pendingRewardsWei := v.pendingRewardsWei + sampleSub.event.subscriptionCollateral })) :=
  ((applySubEvent_subscription_iff 1000 sampleMap sampleSub
    (mkValidator ValidatorStatus.notSubscribed "0xabcd" 11 5)
    (by rfl) (by decide)).2.1 (by decide)).1

theorem foldOpt_append {σ α : Type} (f : σ → α → Option σ) (s : σ) (l1 l2 : List α) :
    foldOpt f s (l1 ++ l2) =
      (match foldOpt f s l1 with
        | none => none
        | some s1 => foldOpt f s1 l2) := by
  induction l1 generalizing s with
  | nil => rfl
  | cons a t ih =>
    cases h : f s a with
    | none => simp [foldOpt, h]
    | some s1 => simp [foldOpt, h, ih]

theorem foldOpt_map_sub (c : Int) (l : List Subscription) (m : ValidatorMap) :
    foldOpt (applyOverlayEvent c) m (l.map OverlayEvent.sub) =
      foldOpt (applySubEvent c) m l := by
  induction l generalizing m with
  | nil => rfl
  | cons a t ih =>
    cases h : applySubEvent c m a with
    | none => simp [foldOpt, applyOverlayEvent, h]
    | some m1 => simp [foldOpt, applyOverlayEvent, h, ih]

theorem foldOpt_map_unsub (c : Int) (l : List Unsubscription) (m : ValidatorMap) :
    foldOpt (applyOverlayEvent c) m (l.map OverlayEvent.unsub) =
      foldOpt applyUnsubEvent m l := by
  induction l generalizing m with
  | nil => rfl
  | cons a t ih =>
    cases h : applyUnsubEvent m a with
    | none => simp [foldOpt, applyOverlayEvent, h]
    | some m1 => simp [foldOpt, applyOverlayEvent, h, ih]

theorem processEventsInBlock_eq_replay (c : Int) (subs : List Subscription)
    (unsubs : List Unsubscription) (m : ValidatorMap) (b : Nat) :
    processEventsInBlock c subs unsubs m b =
      foldOpt (applyOverlayEvent c) m
        ((GetSubInBlock subs b).map OverlayEvent.sub ++
          (GetUnsubInBlock unsubs b).map OverlayEvent.unsub) := by
  rw [foldOpt_append, foldOpt_map_sub]
  unfold processEventsInBlock
  cases h : foldOpt (applySubEvent c) m (GetSubInBlock subs b) with
  | none => rfl
  | some m1 =>
    dsimp only
    rw [foldOpt_map_unsub]

theorem applyNonFinalizedState_replay_aux (c : Int) (subs : List Subscription)
    (unsubs : List Unsubscription) (bs : List Nat) (m : ValidatorMap) :
    foldOpt (processEventsInBlock c subs unsubs) m bs =
      foldOpt (applyOverlayEvent c) m (bs.flatMap (fun b =>
        (GetSubInBlock subs b).map OverlayEvent.sub ++
          (GetUnsubInBlock unsubs b).map OverlayEvent.unsub)) := by
  induction bs generalizing m with
  | nil => rfl
  | cons b t ih =>
    rw [List.flatMap_cons, foldOpt_append, ← processEventsInBlock_eq_replay]
    cases h : processEventsInBlock c subs unsubs m b with
    | none => simp [foldOpt, h]
    | some m1 => simp [foldOpt, h, ih]

theorem overlayEventBlock_mem_chunk {subs : List Subscription} {unsubs : List Unsubscription}
    {b : Nat} {e : OverlayEvent}
    (h : e ∈ (GetSubInBlock subs b).map OverlayEvent.sub ++
      (GetUnsubInBlock unsubs b).map OverlayEvent.unsub) :
    overlayEventBlock e = b := by
  rcases List.mem_append.mp h with h1 | h1
  · obtain ⟨s, hs, rfl⟩ := List.mem_map.mp h1
    simp only [GetSubInBlock, List.mem_filter] at hs
    exact beq_iff_eq.mp hs.2
  · obtain ⟨u, hu, rfl⟩ := List.mem_map.mp h1
    simp only [GetUnsubInBlock, List.mem_filter] at hu
    exact beq_iff_eq.mp hu.2

theorem sorted_eventsBlocksList (subs : List Subscription) (unsubs : List Unsubscription) :
    (eventsBlocksList subs unsubs).Sorted (· ≤ ·) := by
  unfold eventsBlocksList
  exact List.sorted_insertionSort _ _

theorem sorted_orderedOverlayEvents (subs : List Subscription) (unsubs : List Unsubscription) :
    (orderedOverlayEvents subs unsubs).Sorted
      (fun e1 e2 => overlayEventBlock e1 ≤ overlayEventBlock e2) := by
  unfold orderedOverlayEvents
  rw [List.flatMap_def]
  show List.Pairwise _ _
  rw [List.pairwise_flatten]
  constructor
  · intro l' hl'
    obtain ⟨b, _, rfl⟩ := List.mem_map.mp hl'
    apply List.pairwise_of_forall_mem_list
    intro x hx y hy
    rw [overlayEventBlock_mem_chunk hx, overlayEventBlock_mem_chunk hy]
  · rw [List.pairwise_map]
    refine (sorted_eventsBlocksList subs unsubs).imp ?_
    intro b1 b2 hb x hx y hy
    rw [overlayEventBlock_mem_chunk hx, overlayEventBlock_mem_chunk hy]
    exact hb

theorem mem_addBlockIfNew {l : List Nat} {b x : Nat} :
    x ∈ addBlockIfNew l b ↔ x ∈ l ∨ x = b := by
  by_cases h : b ∈ l
  · simp only [addBlockIfNew, if_pos h]
    constructor
    · exact fun hx => Or.inl hx
    · rintro (hx | rfl)
      · exact hx
      · exact h
  · simp [addBlockIfNew, if_neg h]

theorem nodup_addBlockIfNew {l : List Nat} (b : Nat) (h : l.Nodup) :
    (addBlockIfNew l b).Nodup := by
  unfold addBlockIfNew
  split
  · exact h
  · rename_i hb
    simp [List.nodup_append, h, hb]

theorem mem_foldl_addBlockIfNew (l : List Nat) (init : List Nat) (x : Nat) :
    x ∈ l.foldl addBlockIfNew init ↔ x ∈ init ∨ x ∈ l := by
  induction l generalizing init with
  | nil => simp
  | cons a t ih =>
    simp only [List.foldl_cons, ih, mem_addBlockIfNew, List.mem_cons]
    tauto

theorem nodup_foldl_addBlockIfNew (l : List Nat) (init : List Nat) (h : init.Nodup) :
    (l.foldl addBlockIfNew init).Nodup := by
  induction l generalizing init with
  | nil => exact h
  | cons a t ih => exact ih _ (nodup_addBlockIfNew a h)

theorem nodup_eventsBlocksList (subs : List Subscription) (unsubs : List Unsubscription) :
    (eventsBlocksList subs unsubs).Nodup := by
  unfold eventsBlocksList
  exact (List.perm_insertionSort _ _).nodup_iff.mpr
    (nodup_foldl_addBlockIfNew _ _ (nodup_foldl_addBlockIfNew _ _ List.nodup_nil))

theorem mem_eventsBlocksList (subs : List Subscription) (unsubs : List Unsubscription)
    (x : Nat) :
    x ∈ eventsBlocksList subs unsubs ↔
      x ∈ subs.map (fun sub => sub.event.blockNumber) ∨
        x ∈ unsubs.map (fun unsub => unsub.event.blockNumber) := by
  unfold eventsBlocksList
  rw [List.mem_insertionSort _, mem_foldl_addBlockIfNew, mem_foldl_addBlockIfNew]
  simp

theorem perm_flatMap_filter {α : Type} (key : α → Nat) :
    ∀ (bs : List Nat) (l : List α), bs.Nodup → (∀ a ∈ l, key a ∈ bs) →
      List.Perm (bs.flatMap (fun b => l.filter (fun a => key a == b))) l := by
  intro bs
  induction bs with
  | nil =>
    intro l _ hcov
    cases l with
    | nil => exact List.Perm.refl _
    | cons a t => exact absurd (hcov a (List.mem_cons_self a t)) (by simp)
  | cons b bs' ih =>
    intro l hnd hcov
    rw [List.flatMap_cons]
    have hnd' : bs'.Nodup := (List.nodup_cons.mp hnd).2
    have hbnot : b ∉ bs' := (List.nodup_cons.mp hnd).1
    have hfilter : ∀ b' ∈ bs', l.filter (fun a => key a == b') =
        (l.filter (fun a => !(key a == b))).filter (fun a => key a == b') := by
      intro b' hb'
      rw [List.filter_filter]
      apply List.filter_congr
      intro a _
      by_cases hk : key a = b'
      · have hne : ¬(b' = b) := fun he => hbnot (he ▸ hb')
        simp [hk, hne]
      · simp [hk]
    have hmapeq : bs'.flatMap (fun b' => l.filter (fun a => key a == b')) =
        bs'.flatMap (fun b' =>
          (l.filter (fun a => !(key a == b))).filter (fun a => key a == b')) := by
      rw [List.flatMap_def, List.flatMap_def, List.map_congr_left hfilter]
    rw [hmapeq]
    have hperm' := ih (l.filter (fun a => !(key a == b))) hnd' (by
      intro a ha
      have hal : a ∈ l := (List.mem_filter.mp ha).1
      have hnotb : ¬(key a = b) := by
        have h2 := (List.mem_filter.mp ha).2
        simp only [Bool.not_eq_true'] at h2
        intro he
        rw [he] at h2
        simp at h2
      rcases List.mem_cons.mp (hcov a hal) with h1 | h1
      · exact absurd h1 hnotb
      · exact h1)
    exact (List.Perm.append_left _ hperm').trans (List.filter_append_perm _ l)

theorem flatMap_append_perm {α β : Type} (l : List α) (f g : α → List β) :
    List.Perm (l.flatMap (fun a => f a ++ g a)) (l.flatMap f ++ l.flatMap g) := by
  induction l with
  | nil => exact List.Perm.refl _
  | cons a t ih =>
    simp only [List.flatMap_cons]
    have h1 : List.Perm ((f a ++ g a) ++ t.flatMap (fun x => f x ++ g x))
        ((f a ++ g a) ++ (t.flatMap f ++ t.flatMap g)) := List.Perm.append_left _ ih
    refine h1.trans ?_
    have h2 : List.Perm (g a ++ (t.flatMap f ++ t.flatMap g))
        (t.flatMap f ++ (g a ++ t.flatMap g)) := by
      rw [← List.append_assoc, ← List.append_assoc]
      exact List.Perm.append_right _ List.perm_append_comm
    rw [List.append_assoc, List.append_assoc]
    exact List.Perm.append_left _ h2

theorem perm_orderedOverlayEvents (subs : List Subscription) (unsubs : List Unsubscription) :
    List.Perm (orderedOverlayEvents subs unsubs)
      (subs.map OverlayEvent.sub ++ unsubs.map OverlayEvent.unsub) := by
  unfold orderedOverlayEvents
  refine (flatMap_append_perm _ _ _).trans (List.Perm.append ?_ ?_)
  · rw [← List.map_flatMap]
    refine List.Perm.map OverlayEvent.sub ?_
    exact perm_flatMap_filter (fun sub => sub.event.blockNumber) _ subs
      (nodup_eventsBlocksList subs unsubs)
      (fun s hs => (mem_eventsBlocksList subs unsubs _).mpr
        (Or.inl (List.mem_map.mpr ⟨s, hs, rfl⟩)))
  · rw [← List.map_flatMap]
    refine List.Perm.map OverlayEvent.unsub ?_
    exact perm_flatMap_filter (fun unsub => unsub.event.blockNumber) _ unsubs
      (nodup_eventsBlocksList subs unsubs)
      (fun u hu => (mem_eventsBlocksList subs unsubs _).mpr
        (Or.inr (List.mem_map.mpr ⟨u, hu, rfl⟩)))

/-- Counterexample to claim C6 as stated: a head-of-chain stream whose one
block contains an unsubscription before a subscription of the same validator.
The tagged stream is a valid interleaving of the two event lists and is
already in (blockNumber, index-within-block) order, yet ApplyNonFinalizedState
(which replays all subscriptions of a block before its unsubscriptions)
produces a different map than the one-at-a-time replay of that stream. -/
theorem applyNonFinalizedState_interleaving_counterexample :
    subEventsOf [OverlayEvent.unsub sampleUnsub, OverlayEvent.sub sampleSub] = [sampleSub] ∧
    unsubEventsOf [OverlayEvent.unsub sampleUnsub, OverlayEvent.sub sampleSub] = [sampleUnsub] ∧
    List.Sorted (fun e1 e2 => overlayEventBlock e1 ≤ overlayEventBlock e2)
      [OverlayEvent.unsub sampleUnsub, OverlayEvent.sub sampleSub] ∧
    ApplyNonFinalizedState 1000 [sampleSub] [sampleUnsub] activeMap ≠
      replayEvents 1000 activeMap
        [OverlayEvent.unsub sampleUnsub, OverlayEvent.sub sampleSub] := by
  refine ⟨rfl, rfl, by decide, by decide⟩

/-- Claim C6 as amended: the validator map produced by ApplyNonFinalizedState
equals the map obtained by replaying all subscription and unsubscription
events one at a time, ascending by block number and, within one block, all
subscriptions (in their list order) before all unsubscriptions (in their list
order); the replayed stream is sorted by block number and is a permutation of
the tagged input events. -/
theorem applyNonFinalizedState_replay (c : Int) (subs : List Subscription)
    (unsubs : List Unsubscription) (m : ValidatorMap) :
    ApplyNonFinalizedState c subs unsubs m =
      replayEvents c m (orderedOverlayEvents subs unsubs) ∧
    List.Sorted (fun e1 e2 => overlayEventBlock e1 ≤ overlayEventBlock e2)
      (orderedOverlayEvents subs unsubs) ∧
    List.Perm (orderedOverlayEvents subs unsubs)
      (subs.map OverlayEvent.sub ++ unsubs.map OverlayEvent.unsub) :=
  ⟨applyNonFinalizedState_replay_aux c subs unsubs (eventsBlocksList subs unsubs) m,
    sorted_orderedOverlayEvents subs unsubs,
    perm_orderedOverlayEvents subs unsubs⟩

theorem aggregateFuel_addr_mem :
    ∀ (fuel : Nat) (l : List RawLeaf), l.length ≤ fuel →
      ∀ leaf ∈ aggregateFuel fuel l,
        leaf.depositAddress ∈ l.map (fun x => x.depositAddress) := by
  intro fuel
  induction fuel with
  | zero =>
    intro l hl leaf hleaf
    cases l with
    | nil => simp [aggregateFuel] at hleaf
    | cons a t => simp at hl
  | succ n ih =>
    intro l hl leaf hleaf
    cases l with
    | nil => simp [aggregateFuel] at hleaf
    | cons a t =>
      simp only [aggregateFuel, List.mem_cons] at hleaf
      rcases hleaf with rfl | hleaf
      · simp
      · have hlen : (t.filter (fun x => !(x.depositAddress == a.depositAddress))).length ≤ n :=
          le_trans (List.length_filter_le _ _) (Nat.le_of_succ_le_succ hl)
        obtain ⟨x, hx, hxa⟩ := List.mem_map.mp (ih _ hlen leaf hleaf)
        exact List.mem_map.mpr ⟨x, List.mem_cons_of_mem a (List.mem_filter.mp hx).1, hxa⟩

theorem aggregateFuel_addr_nodup :
    ∀ (fuel : Nat) (l : List RawLeaf), l.length ≤ fuel →
      ((aggregateFuel fuel l).map (fun x => x.depositAddress)).Nodup := by
  intro fuel
  induction fuel with
  | zero =>
    intro l hl
    cases l with
    | nil => simp [aggregateFuel]
    | cons a t => simp at hl
  | succ n ih =>
    intro l hl
    cases l with
    | nil => simp [aggregateFuel]
    | cons a t =>
      have hlen : (t.filter (fun x => !(x.depositAddress == a.depositAddress))).length ≤ n :=
        le_trans (List.length_filter_le _ _) (Nat.le_of_succ_le_succ hl)
      simp only [aggregateFuel, List.map_cons]
      rw [List.nodup_cons]
      refine ⟨?_, ih _ hlen⟩
      intro hmem
      obtain ⟨leaf, hleaf, heq⟩ := List.mem_map.mp hmem
      obtain ⟨x, hx, hxa⟩ := List.mem_map.mp (aggregateFuel_addr_mem n _ hlen leaf hleaf)
      have hxne := (List.mem_filter.mp hx).2
      rw [hxa, heq] at hxne
      simp at hxne

theorem aggregateFuel_mem_sum :
    ∀ (fuel : Nat) (l : List RawLeaf), l.length ≤ fuel →
      ∀ a ∈ l.map (fun x => x.depositAddress),
        { depositAddress := a
          accumulatedBalance :=
            sumBalances (l.filter (fun x => x.depositAddress == a)) } ∈
          aggregateFuel fuel l := by
  intro fuel
  induction fuel with
  | zero =>
    intro l hl a ha
    cases l with
    | nil => simp at ha
    | cons x t => simp at hl
  | succ n ih =>
    intro l hl a ha
    cases l with
    | nil => simp at ha
    | cons x t =>
      by_cases hax : x.depositAddress = a
      · subst hax
        rw [List.filter_cons_of_pos (by simp)]
        simp only [aggregateFuel]
        exact List.mem_cons_self _ _
      · have hamem : a ∈ t.map (fun y => y.depositAddress) := by
          obtain ⟨y, hy, hya⟩ := List.mem_map.mp ha
          rcases List.mem_cons.mp hy with rfl | hyt
          · exact absurd hya hax
          · exact List.mem_map.mpr ⟨y, hyt, hya⟩
        have hfl : (x :: t).filter (fun y => y.depositAddress == a) =
            t.filter (fun y => y.depositAddress == a) :=
          List.filter_cons_of_neg (by simp [hax])
        have hff : t.filter (fun y => y.depositAddress == a) =
            (t.filter (fun y => !(y.depositAddress == x.depositAddress))).filter
              (fun y => y.depositAddress == a) := by
          rw [List.filter_filter]
          apply List.filter_congr
          intro y _
          by_cases hya : y.depositAddress = a
          · have hyx : ¬(y.depositAddress = x.depositAddress) := by
              intro he
              exact hax (he.symm.trans hya)
            have hax' : ¬(a = x.depositAddress) := fun he => hax he.symm
            simp [hya, hyx, hax']
          · simp [hya]
        have hmem' : a ∈ (t.filter
            (fun y => !(y.depositAddress == x.depositAddress))).map
              (fun y => y.depositAddress) := by
          obtain ⟨y, hyt, hya⟩ := List.mem_map.mp hamem
          have hyx : ¬(y.depositAddress = x.depositAddress) := by
            intro he
            exact hax (he.symm.trans hya)
          exact List.mem_map.mpr ⟨y, List.mem_filter.mpr ⟨hyt, by simp [hyx]⟩, hya⟩
        have hlen : (t.filter (fun y => !(y.depositAddress == x.depositAddress))).length ≤ n :=
          le_trans (List.length_filter_le _ _) (Nat.le_of_succ_le_succ hl)
        rw [hfl, hff]
        simp only [aggregateFuel]
        exact List.mem_cons_of_mem _ (ih _ hlen a hmem')

theorem sumBalances_map_validators (l : List (Nat × ValidatorInfo)) :
    sumBalances (l.map (fun kv =>
      { depositAddress := kv.2.withdrawalAddress
        accumulatedBalance := kv.2.accumulatedRewardsWei })) =
      (l.map (fun kv => kv.2.accumulatedRewardsWei)).sum := by
  induction l with
  | nil => rfl
  | cons kv t ih =>
    simp only [List.map_cons, List.sum_cons, ← ih]
    rfl

theorem sumBalances_filter_allRawLeaves (st : OracleState) (a : String)
    (hne : ¬(st.poolAddress = a)) :
    sumBalances ((allRawLeaves st).filter (fun x => x.depositAddress == a)) =
      sumAccumulatedAt st a := by
  unfold allRawLeaves sumAccumulatedAt
  rw [List.filter_cons_of_neg (by simp [hne]), List.filter_map]
  have hpred : st.validators.filter ((fun x : RawLeaf => x.depositAddress == a) ∘
      (fun kv : Nat × ValidatorInfo =>
        { depositAddress := kv.2.withdrawalAddress
          accumulatedBalance := kv.2.accumulatedRewardsWei })) =
      st.validators.filter (fun kv => kv.2.withdrawalAddress == a) := by
    apply List.filter_congr
    intro kv _
    rfl
  rw [hpred, sumBalances_map_validators]

/-- Counterexample to the position-0 part of claim C3: when the pool address
is not the byte-lexicographically smallest address (here the single validator
address sorts below it), the pool-fees leaf does not end up at position 0; it
is sorted like any other leaf, as the spec itself notes in section 9. -/
theorem aggregateValidatorsIndexes_pool_not_first :
    AggregateValidatorsIndexes cexAggState =
      [{ depositAddress := "0xaaaa", accumulatedBalance := 5 },
        { depositAddress := "0xbbbb", accumulatedBalance := 7 }] ∧
    cexAggState.poolAddress = "0xbbbb" ∧
    (AggregateValidatorsIndexes cexAggState).head?.map (fun leaf => leaf.depositAddress) ≠
      some cexAggState.poolAddress :=
  ⟨by decide, rfl, by decide⟩

/-- Claim C3 as amended: the aggregation returns a list of leaves sorted
byte-lexicographically ascending by address with pairwise distinct addresses;
every leaf address is the pool address or a validator address; every distinct
validator address carries exactly the sum of the accumulated rewards of the
validators sharing it; and whenever the pool address sorts strictly below
every validator address (the spec section 9 assumption), the pool-fees leaf
carrying PoolAccumulatedFees is at position 0. -/
theorem aggregateValidatorsIndexes_spec (st : OracleState)
    (hp : ∀ kv ∈ st.validators, st.poolAddress.data < kv.2.withdrawalAddress.data) :
    List.Sorted leafLe (AggregateValidatorsIndexes st) ∧
    (leafAddresses (AggregateValidatorsIndexes st)).Nodup ∧
    (∀ leaf ∈ AggregateValidatorsIndexes st,
      leaf.depositAddress = st.poolAddress ∨
        leaf.depositAddress ∈ validatorAddresses st) ∧
    (∀ a ∈ validatorAddresses st,
      { depositAddress := a, accumulatedBalance := sumAccumulatedAt st a } ∈
        AggregateValidatorsIndexes st) ∧
    (∃ rest, AggregateValidatorsIndexes st =
      { depositAddress := st.poolAddress
        accumulatedBalance := st.poolAccumulatedFees } :: rest) := by
  have hsorted : List.Sorted leafLe (AggregateValidatorsIndexes st) :=
    List.sorted_insertionSort _ _
  have hmemiff : ∀ x : RawLeaf, x ∈ AggregateValidatorsIndexes st ↔
      x ∈ aggregateByAddress (allRawLeaves st) := by
    intro x
    exact List.mem_insertionSort _
  have hnodup : (leafAddresses (AggregateValidatorsIndexes st)).Nodup := by
    have hperm : List.Perm (leafAddresses (AggregateValidatorsIndexes st))
        ((aggregateByAddress (allRawLeaves st)).map (fun x => x.depositAddress)) :=
      (List.perm_insertionSort _ _).map _
    exact hperm.nodup_iff.mpr
      (aggregateFuel_addr_nodup (allRawLeaves st).length _ (le_refl _))
  have hcomplete : ∀ leaf ∈ AggregateValidatorsIndexes st,
      leaf.depositAddress = st.poolAddress ∨
        leaf.depositAddress ∈ validatorAddresses st := by
    intro leaf hleaf
    have h2 := aggregateFuel_addr_mem (allRawLeaves st).length _ (le_refl _) leaf
      ((hmemiff leaf).mp hleaf)
    simp only [allRawLeaves, List.map_cons, List.mem_cons, List.map_map] at h2
    rcases h2 with h | h
    · exact Or.inl h
    · refine Or.inr ?_
      obtain ⟨kv, hkv, hkva⟩ := List.mem_map.mp h
      exact List.mem_map.mpr ⟨kv, hkv, hkva⟩
  have hpool_ne : ∀ a ∈ validatorAddresses st, ¬(st.poolAddress = a) := by
    intro a ha he
    obtain ⟨kv, hkv, hkva⟩ := List.mem_map.mp ha
    have hlt := hp kv hkv
    rw [hkva, ← he] at hlt
    exact lt_irrefl _ hlt
  have hsum : ∀ a ∈ validatorAddresses st,
      { depositAddress := a, accumulatedBalance := sumAccumulatedAt st a } ∈
        AggregateValidatorsIndexes st := by
    intro a ha
    have hmem : a ∈ (allRawLeaves st).map (fun x => x.depositAddress) := by
      obtain ⟨kv, hkv, hkva⟩ := List.mem_map.mp ha
      simp only [allRawLeaves, List.map_cons, List.mem_cons, List.map_map]
      exact Or.inr (List.mem_map.mpr ⟨kv, hkv, hkva⟩)
    have h3 := aggregateFuel_mem_sum (allRawLeaves st).length _ (le_refl _) a hmem
    rw [sumBalances_filter_allRawLeaves st a (hpool_ne a ha)] at h3
    exact (hmemiff _).mpr h3
  have hpoolmem :
      ({ depositAddress := st.poolAddress,
         accumulatedBalance := st.poolAccumulatedFees } : RawLeaf) ∈
        AggregateValidatorsIndexes st := by
    have hmem : st.poolAddress ∈ (allRawLeaves st).map (fun x => x.depositAddress) := by
      simp [allRawLeaves]
    have h3 := aggregateFuel_mem_sum (allRawLeaves st).length _ (le_refl _) _ hmem
    have h4 : sumBalances ((allRawLeaves st).filter
        (fun x => x.depositAddress == st.poolAddress)) = st.poolAccumulatedFees := by
      unfold allRawLeaves
      rw [List.filter_cons_of_pos (by simp), List.filter_map]
      have hnil : st.validators.filter ((fun x : RawLeaf =>
          x.depositAddress == st.poolAddress) ∘
          (fun kv : Nat × ValidatorInfo =>
            { depositAddress := kv.2.withdrawalAddress
              accumulatedBalance := kv.2.accumulatedRewardsWei })) = [] := by
        rw [List.filter_eq_nil_iff]
        intro kv hkv
        have hlt := hp kv hkv
        simp only [Function.comp]
        intro hbeq
        have heq : kv.2.withdrawalAddress = st.poolAddress := by
          simpa using hbeq
        rw [heq] at hlt
        exact lt_irrefl _ hlt
      rw [hnil]
      simp [sumBalances]
    rw [h4] at h3
    exact (hmemiff _).mpr h3
  refine ⟨hsorted, hnodup, hcomplete, hsum, ?_⟩
  cases hres : AggregateValidatorsIndexes st with
  | nil => rw [hres] at hpoolmem; simp at hpoolmem
  | cons r0 rs =>
    refine ⟨rs, ?_⟩
    rw [hres] at hpoolmem hsorted hnodup hcomplete
    rcases List.mem_cons.mp hpoolmem with heq | hmemrs
    · rw [← heq]
    · by_cases hr0 : r0.depositAddress = st.poolAddress
      · exfalso
        have hmemaddr : st.poolAddress ∈ rs.map (fun x => x.depositAddress) :=
          List.mem_map.mpr ⟨_, hmemrs, rfl⟩
        have hnd := hnodup
        simp only [leafAddresses, List.map_cons, List.nodup_cons] at hnd
        exact hnd.1 (hr0 ▸ hmemaddr)
      · exfalso
        rcases hcomplete r0 (List.mem_cons_self r0 rs) with h | h
        · exact hr0 h
        · obtain ⟨kv, hkv, hkva⟩ := List.mem_map.mp h
          have hlt : st.poolAddress.data < r0.depositAddress.data := by
            rw [← hkva]
            exact hp kv hkv
          have hle :
              leafLe r0 ({ depositAddress := st.poolAddress,
                           accumulatedBalance := st.poolAccumulatedFees } : RawLeaf) :=
            (List.sorted_cons.mp hsorted).1 _ hmemrs
          exact absurd hle (not_le.mpr hlt)

/-- Witness for the amended claim C3 at concrete inputs: a state whose pool
address sorts below its only validator address. -/
theorem aggregateValidatorsIndexes_spec_witness :
    ∃ rest, AggregateValidatorsIndexes sampleState =
      { depositAddress := sampleState.poolAddress
        accumulatedBalance := sampleState.poolAccumulatedFees } :: rest :=
  (aggregateValidatorsIndexes_spec sampleState (by decide)).2.2.2.2
